import Mathlib

/-!
Shallow embedding of `mmcls/evaluation/metrics/multi_label.py`.

Scores and targets are modelled as exact rationals (`ℚ`): every operation the
claims exercise (comparison, division, cumulative sums) is exact arithmetic, so
the rational model reproduces the float computation wherever the float
computation is exact, and literal expected values are settled up to an explicit
tolerance.  Matrices are `List (List ℚ)` in row-major order.  Fallible code
(Python assertions, `ZeroDivisionError`, `IndexError`) is modelled with
`Except String`.
-/

namespace MMCls

/-- A row-major matrix of rational scores. -/
abbrev Mat := List (List ℚ)

/-- The `average` argument of the metric entry points:
`"macro"`, `"micro"` or `None`. -/
inductive Average
| macroAvg
| microAvg
| noneAvg
deriving DecidableEq

/-- Threshold decision rule, embedding `pos_inds = (pred >= thr).long()`
(multi_label.py line 346): a cell is 1 iff its score is `≥ thr`. -/
def threshMask (pred : Mat) (thr : ℚ) : List (List ℕ) :=
  pred.map fun row => row.map fun s => if thr ≤ s then 1 else 0

/-- The column indices of one row sorted by score descending, embedding the
index permutation used by `pred.topk(topk)` (line 349).  `torch.topk` breaks
ties among equal scores in an implementation-defined order; a stable insertion
sort by descending score is one faithful instance of that freedom. -/
def sortedIdx (row : List ℚ) : List ℕ :=
  (List.range row.length).insertionSort fun i j => row.getD j 0 ≤ row.getD i 0

/-- The `k` highest-scoring column indices of one row (`pred.topk(topk)`,
line 349). -/
def topkIndices (row : List ℚ) (k : ℕ) : List ℕ :=
  (sortedIdx row).take k

/-- One row of the top-k decision mask, embedding
`torch.zeros_like(pred).scatter_(1, topk_indices, 1)` (line 350): the cells at
the top-k indices are 1, all others 0. -/
def topkMaskRow (row : List ℚ) (k : ℕ) : List ℕ :=
  (List.range row.length).map fun j => if j ∈ topkIndices row k then 1 else 0

/-- Top-k decision mask of a score matrix (lines 349-351). -/
def topkMask (pred : Mat) (k : ℕ) : List (List ℕ) :=
  pred.map fun row => topkMaskRow row k

/-- Number of rows `i` whose mask cell and target cell in column `c` equal
`m` and `t` respectively: the basic confusion count. -/
def cnt (mask : List (List ℕ)) (target : List (List ℤ)) (c : ℕ) (m : ℕ) (t : ℤ) : ℕ :=
  ((List.range mask.length).filter fun i =>
    ((mask.getD i []).getD c 0 == m) && ((target.getD i []).getD c 0 == t)).length

/-- Zero-guarded ratio `a / b if b > 0 else 0`. -/
def ratio (a b : ℕ) : ℚ :=
  if b = 0 then 0 else (a : ℚ) / (b : ℚ)

/-- Zero-guarded harmonic mean `2pr/(p+r) if p+r > 0 else 0`. -/
def f1q (p r : ℚ) : ℚ :=
  if p + r = 0 then 0 else 2 * p * r / (p + r)

/-- Arithmetic mean of a rational list.  `torch.mean` of an empty tensor is
NaN; `ℚ` has no NaN, so the empty case is `none`, and the callers below
surface it as a distinct error value (never as a number). -/
def meanQ (l : List ℚ) : Option ℚ :=
  if l.length = 0 then none else some (l.sum / (l.length : ℚ))

/-- Per-class true positives: rows with decision 1 and target 1. -/
def clsTP (mask : List (List ℕ)) (target : List (List ℤ)) (c : ℕ) : ℕ :=
  cnt mask target c 1 1

/-- Per-class false positives: rows with decision 1 and target 0. -/
def clsFP (mask : List (List ℕ)) (target : List (List ℤ)) (c : ℕ) : ℕ :=
  cnt mask target c 1 0

/-- Per-class false negatives: rows with decision 0 and target 1. -/
def clsFN (mask : List (List ℕ)) (target : List (List ℤ)) (c : ℕ) : ℕ :=
  cnt mask target c 0 1

/-- Per-class precision `tp/(tp+fp)`, zero when the denominator is zero. -/
def clsPrecision (mask : List (List ℕ)) (target : List (List ℤ)) (c : ℕ) : ℚ :=
  ratio (clsTP mask target c) (clsTP mask target c + clsFP mask target c)

/-- Per-class recall `tp/(tp+fn)`, zero when the denominator is zero. -/
def clsRecall (mask : List (List ℕ)) (target : List (List ℤ)) (c : ℕ) : ℚ :=
  ratio (clsTP mask target c) (clsTP mask target c + clsFN mask target c)

/-- Per-class f1-score, the zero-guarded harmonic mean of precision and
recall. -/
def clsF1 (mask : List (List ℕ)) (target : List (List ℤ)) (c : ℕ) : ℚ :=
  f1q (clsPrecision mask target c) (clsRecall mask target c)

/-- Per-class support `tp + fn`: the number of target positives. -/
def clsSupport (mask : List (List ℕ)) (target : List (List ℤ)) (c : ℕ) : ℕ :=
  clsTP mask target c + clsFN mask target c

/-- Modelled from the spec: `_precision_recall_f1_support`, imported by the
source from `mmcls/evaluation/metrics/single_label.py`, which is not part of
this repository snapshot.  Per spec section 4.3: per class
`tp = count(decision=1 ∧ target=1)`, `fp = count(decision=1 ∧ target=0)`,
`fn = count(decision=0 ∧ target=1)`, `support = tp+fn`; zero-guarded ratios;
macro averages the per-class values (f1 from the per-class f1 mean), micro
pools the counts first, `none` returns per-class vectors; percentages scaled
by 100, support returned as a raw count (summed for macro/micro).  The four
components are returned as lists, singletons in the macro/micro modes.  The
macro mean over zero classes is NaN in torch; it is surfaced as the `Except`
error (ℚ has no NaN), never as a number. -/
def precision_recall_f1_support (mask : List (List ℕ)) (target : List (List ℤ))
    (C : ℕ) (avg : Average) :
    Except String (List ℚ × List ℚ × List ℚ × List ℕ) :=
  match avg with
  | .macroAvg =>
    match meanQ ((List.range C).map (clsPrecision mask target)),
        meanQ ((List.range C).map (clsRecall mask target)),
        meanQ ((List.range C).map (clsF1 mask target)) with
    | some p, some r, some f =>
      .ok ([p * 100], [r * 100], [f * 100],
        [((List.range C).map (clsSupport mask target)).sum])
    | _, _, _ => .error "NaN: mean of an empty tensor"
  | .microAvg =>
    let tp := ((List.range C).map (clsTP mask target)).sum
    let fp := ((List.range C).map (clsFP mask target)).sum
    let fn := ((List.range C).map (clsFN mask target)).sum
    .ok ([ratio tp (tp + fp) * 100],
      [ratio tp (tp + fn) * 100],
      [f1q (ratio tp (tp + fp)) (ratio tp (tp + fn)) * 100],
      [tp + fn])
  | .noneAvg =>
    .ok ((List.range C).map fun c => clsPrecision mask target c * 100,
      (List.range C).map fun c => clsRecall mask target c * 100,
      (List.range C).map fun c => clsF1 mask target c * 100,
      (List.range C).map (clsSupport mask target))

namespace MultiLabelMetric

/-- `MultiLabelMetric.calculate` (multi_label.py lines 238-353) on matrix
inputs.  The target matrix is taken as integers, matching the source's
`.long()` cast of the formatted target.  The shape assertion at lines 332-334
(with the tensors necessarily rectangular) is the `Except` error; then
`thr = 0.5 if (thr is None and topk is None) else thr` (line 342), the
threshold mask when `thr` is set, the top-k mask otherwise, and the confusion
engine on the resulting mask. -/
def calculate (pred : Mat) (target : List (List ℤ)) (avg : Average)
    (thr : Option ℚ) (topk : Option ℕ) :
    Except String (List ℚ × List ℚ × List ℚ × List ℕ) :=
  let C := (pred.headD []).length
  if pred.length = target.length ∧ (∀ r ∈ pred, r.length = C) ∧
      (∀ r ∈ target, r.length = C) then
    let thr := if thr.isNone && topk.isNone then some (1/2 : ℚ) else thr
    match thr with
    | some t => precision_recall_f1_support (threshMask pred t) target C avg
    | none => precision_recall_f1_support (topkMask pred (topk.getD 0)) target C avg
  else
    .error "The size of pred does not match the target."

end MultiLabelMetric

/-- `torch.finfo(torch.float32).eps`, the epsilon used by `_average_precision`
(line 383) to guard divisions by zero. -/
def eps : ℚ := 1 / 2 ^ 23

/-- Walk of the sorted per-class target list of `_average_precision`
(lines 391-408): `apScan ts i tpc` returns the sum, over the positions holding
a true positive, of `cumulative_tp / rank` (rank `i`-based), together with the
final cumulative true-positive count.  This is the recursive rendering of the
vectorized `tps = cumsum(pos_inds); tps[¬pos_inds] = 0; tps / arange(1, n+1)`
(the source also clamps `arange(1, n+1)` from below by `eps` at line 404,
which never fires since each entry is at least 1). -/
def apScan : List ℚ → ℕ → ℕ → ℚ × ℕ
  | [], _, tpc => (0, tpc)
  | t :: rest, i, tpc =>
    let tpc' := if t = 1 then tpc + 1 else tpc
    let p : ℚ := if t = 1 then (tpc' : ℚ) / (i : ℚ) else 0
    let s := apScan rest (i + 1) tpc'
    (p + s.1, s.2)

/-- The valid `(pred, target)` pairs of one class: entries whose target is not
the `-1` ignore sentinel (`valid_index = target > -1`, line 387). -/
def validPairs (pred target : List ℚ) : List (ℚ × ℚ) :=
  (pred.zip target).filter fun pt => decide (-1 < pt.2)

/-- The per-class target values sorted by prediction score descending
(`sorted_target = target[argsort(pred, descending=True)]`, lines 392-393).
`torch.argsort` breaks ties among equal scores in an implementation-defined
order; a stable insertion sort is one faithful instance of that freedom. -/
def sortedTargets (pred target : List ℚ) : List ℚ :=
  ((validPairs pred target).insertionSort fun a b => b.1 ≤ a.1).map Prod.snd

/-- `_average_precision` (lines 356-409) for one class: filter out `-1`
sentinel targets, sort by score descending, sum `cumulative_tp / rank` at the
true-positive ranks, divide by `max(total_pos, eps)`.  When the filtered list
is empty, `tps[-1]` at line 400 raises an `IndexError`, modelled as the
`Except` error. -/
def _average_precision (pred target : List ℚ) : Except String ℚ :=
  let st := sortedTargets pred target
  if st.isEmpty then
    .error "IndexError: tps[-1] on an empty tensor"
  else
    let s := apScan st 1 0
    .ok (s.1 / max (s.2 : ℚ) eps)

/-- Column `c` of a matrix. -/
def column (m : Mat) (c : ℕ) : List ℚ :=
  m.map fun row => row.getD c 0

/-- The per-class loop of `AveragePrecision.calculate` (lines 577-578):
`for k in range(num_classes): ap[k] = _average_precision(pred[:, k],
target[:, k])`, propagating the first per-class failure. -/
def apPerClass (pred target : Mat) : List ℕ → Except String (List ℚ)
  | [] => .ok []
  | c :: cs => do
    let a ← _average_precision (column pred c) (column target c)
    let rest ← apPerClass pred target cs
    .ok (a :: rest)

namespace AveragePrecision

/-- `AveragePrecision.calculate` (lines 535-582).  The `average` argument must
be `"macro"` or `None` (assert at lines 566-568); the inputs must be matrices
of identical shape (assert at lines 572-573); per-class average precisions are
then scaled by 100 and macro-averaged when requested.  `ap.mean()` (line 580)
on a zero-class input is NaN in torch; it is surfaced as the `Except` error
(ℚ has no NaN), never as a number. -/
def calculate (pred target : Mat) (avg : Average) : Except String (List ℚ) :=
  let C := (pred.headD []).length
  if avg = .microAvg then
    .error "Invalid average argument"
  else if pred.length = target.length ∧ (∀ r ∈ pred, r.length = C) ∧
      (∀ r ∈ target, r.length = C) then
    match apPerClass pred target (List.range C) with
    | .error e => .error e
    | .ok aps =>
      match avg with
      | .macroAvg =>
        match meanQ aps with
        | some m => .ok [m * 100]
        | none => .error "NaN: mean of an empty tensor"
      | _ => .ok (aps.map fun a => a * 100)
  else
    .error "Both pred and target should have shape (N, num_classes)."

end AveragePrecision

/-- The `option` argument of `RetrievalAveragePrecision.calculate`:
`"standard"` or `"average"`. -/
inductive ROption
| standard
| averageOpt
deriving DecidableEq

/-- The loop of `RetrievalAveragePrecision.calculate` (lines 751-759):
`apSumGo ranks i opt` accumulates, over the 0-indexed positive ranks in
occurrence order starting at occurrence index `i`, the precision term
`(i+1)/(rank+1)` (standard) or the average of the adjacent precision points
(average), with `left = i/rank if rank > 0 else 1`. -/
def apSumGo : List ℕ → ℕ → ROption → ℚ
  | [], _, _ => 0
  | r :: rest, i, opt =>
    (match opt with
     | .standard => ((i : ℚ) + 1) / ((r : ℚ) + 1)
     | .averageOpt =>
       ((if 0 < r then (i : ℚ) / (r : ℚ) else 1) + ((i : ℚ) + 1) / ((r : ℚ) + 1)) / 2)
    + apSumGo rest (i + 1) opt

namespace RetrievalAveragePrecision

/-- The 0-indexed ranks within the truncated id list whose id belongs to the
target id list (`positive_ranks = arange(predictions_num)[in1d(...)]`,
lines 747-749). -/
def positiveRanks (idsT target : List ℤ) : List ℕ :=
  (List.range idsT.length).filter fun r => decide (idsT.getD r 0 ∈ target)

/-- `RetrievalAveragePrecision.calculate` (lines 696-761): truncate the ranked
id list to `max_predictions` entries, normalize the accumulated precision sum
by `num_expected_retrieved = min(target.shape[0], max_predictions)` and scale
by 100.  When that denominator is 0 the source divides by zero
(`ZeroDivisionError`), modelled as the `Except` error. -/
def calculate (ids target : List ℤ) (maxPred : ℕ) (opt : ROption) :
    Except String ℚ :=
  let idsT := ids.take maxPred
  let numExpected := min target.length maxPred
  let s := apSumGo (positiveRanks idsT target) 0 opt
  if numExpected = 0 then
    .error "ZeroDivisionError"
  else
    .ok (s / (numExpected : ℚ) * 100)

end RetrievalAveragePrecision

/-- Modelled from the spec: `LabelData.label_to_onehot`, imported by the
source from `mmengine.structures` and absent from this snapshot.  Per spec
section 4.1: expand a collection of class indices to a one-hot row of length
`num_classes` with 1s at exactly the given indices. -/
def label_to_onehot (indices : List ℕ) (numCls : ℕ) : List ℚ :=
  (List.range numCls).map fun j => if j ∈ indices then 1 else 0

/-- The index-encoded branch of `_format_label` (lines 311-319): when
`is_indices` holds, `num_classes` is mandatory (assert at lines 313-314,
modelled as the `Except` error) and every sample's index collection expands to
a one-hot row via `label_to_onehot`. -/
def formatIndexLabel (label : List (List ℕ)) (numCls : Option ℕ) :
    Except String (List (List ℚ)) :=
  match numCls with
  | none => .error "For index-type labels, please specify num_classes."
  | some n => .ok (label.map fun idxs => label_to_onehot idxs n)

/-! Helper lemmas shared by the claim theorems.  The Batteries rational
arithmetic operations are sealed `irreducible` by default; the concrete
evaluation theorems below unseal them locally so that `decide` and `rfl` can
evaluate the definitions above on concrete inputs. -/

/-- `getD` of a mapped list at an in-range index is the function applied to
the `getD` of the original list there. -/
theorem getD_map_lt {α β : Type} (f : α → β) (l : List α) (i : ℕ)
    (hi : i < l.length) (db : β) (da : α) :
    (l.map f).getD i db = f (l.getD i da) := by
  rw [List.getD_eq_getElem?_getD, List.getElem?_map, List.getElem?_eq_getElem hi,
    List.getD_eq_getElem?_getD, List.getElem?_eq_getElem hi]
  rfl

/-- `getD` of `List.range n` at an in-range index is the index itself. -/
theorem getD_range_lt (n j : ℕ) (h : j < n) : (List.range n).getD j 0 = j := by
  rw [List.getD_eq_getElem?_getD, List.getElem?_eq_getElem (by simpa using h)]
  simp

/-- C1: for every prediction matrix, target matrix, threshold `t` and top-k
value `k`, `MultiLabelMetric.calculate` invoked with both `thr = t` and
`topk = k` returns exactly the same (precision, recall, f1, support) tuple as
with `thr = t` and `topk = None`: the threshold always takes precedence and
top-k is ignored whenever a threshold is supplied. -/
theorem C1_threshold_precedence (pred : Mat) (target : List (List ℤ))
    (avg : Average) (t : ℚ) (k : ℕ) :
    MultiLabelMetric.calculate pred target avg (some t) (some k) =
    MultiLabelMetric.calculate pred target avg (some t) none := rfl

/-- C7: in threshold mode a decision-mask cell is 1 iff its score is at least
the threshold (inclusive comparison), and when neither `thr` nor `topk` is
supplied, `MultiLabelMetric.calculate` behaves exactly as with the default
threshold 0.5. -/
theorem C7_threshold_semantics :
    (∀ (pred : Mat) (t : ℚ) (i j : ℕ),
      i < pred.length → j < (pred.getD i []).length →
      (((threshMask pred t).getD i []).getD j 0 = 1 ↔
        t ≤ (pred.getD i []).getD j 0)) ∧
    (∀ (pred : Mat) (target : List (List ℤ)) (avg : Average),
      MultiLabelMetric.calculate pred target avg none none =
      MultiLabelMetric.calculate pred target avg (some (1/2)) none) := by
  constructor
  · intro pred t i j hi hj
    have hrow : (threshMask pred t).getD i [] =
        (pred.getD i []).map fun s => if t ≤ s then 1 else 0 := by
      unfold threshMask
      exact getD_map_lt _ pred i hi [] []
    rw [hrow, getD_map_lt _ _ j hj 0 0]
    by_cases h : t ≤ (pred.getD i []).getD j 0 <;> simp [h]
  · intro pred target avg
    rfl

/-- Witness for C7 at `pred = [[1]]`, `t = 1/2`, `i = j = 0`. -/
theorem C7_threshold_semantics_witness :
    (((threshMask [[1]] (1/2)).getD 0 []).getD 0 0 = 1 ↔
      (1/2 : ℚ) ≤ ([[(1 : ℚ)]].getD 0 []).getD 0 0) ∧
    (MultiLabelMetric.calculate [[1]] [[1]] Average.macroAvg none none =
      MultiLabelMetric.calculate [[1]] [[1]] Average.macroAvg (some (1/2)) none) :=
  ⟨C7_threshold_semantics.1 [[1]] (1/2) 0 0 (by decide) (by decide),
   C7_threshold_semantics.2 [[1]] [[1]] Average.macroAvg⟩

/-- C6: when `num_expected = min(target length, max_predictions)` is 0 (in
particular when the relevant id set is empty),
`RetrievalAveragePrecision.calculate` hits an unguarded division by zero and
fails, rather than returning a defined value. -/
theorem C6_retrieval_zero_expected_error (ids target : List ℤ) (k : ℕ)
    (opt : ROption) (h : min target.length k = 0) :
    RetrievalAveragePrecision.calculate ids target k opt =
      .error "ZeroDivisionError" := by
  unfold RetrievalAveragePrecision.calculate
  simp [h]

/-- Witness for C6 at `ids = [1, 2]`, empty relevant set, `k = 5`. -/
theorem C6_retrieval_zero_expected_error_witness :
    RetrievalAveragePrecision.calculate [1, 2] [] 5 ROption.standard =
      .error "ZeroDivisionError" :=
  C6_retrieval_zero_expected_error [1, 2] [] 5 ROption.standard (by decide)

/-- C8: for index-encoded label input, normalization fails when `num_classes`
is absent; when `num_classes = n` is supplied, each sample expands to a
one-hot row of length `n` with 1s at exactly the given indices. -/
theorem C8_index_label_normalization :
    (∀ label : List (List ℕ),
      formatIndexLabel label none =
        .error "For index-type labels, please specify num_classes.") ∧
    (∀ (label : List (List ℕ)) (n : ℕ) (res : List (List ℚ)),
      formatIndexLabel label (some n) = .ok res →
      res.length = label.length ∧
      ∀ i j : ℕ, i < label.length → j < n →
        (res.getD i []).length = n ∧
        ((res.getD i []).getD j 0 = 1 ↔ j ∈ label.getD i [])) := by
  constructor
  · intro label
    rfl
  · intro label n res hres
    have hres' : res = label.map fun idxs => label_to_onehot idxs n := by
      simpa [formatIndexLabel] using hres.symm
    subst hres'
    refine ⟨by simp, ?_⟩
    intro i j hi hj
    have hrow : (label.map fun idxs => label_to_onehot idxs n).getD i [] =
        label_to_onehot (label.getD i []) n :=
      getD_map_lt _ label i hi [] []
    rw [hrow]
    constructor
    · unfold label_to_onehot
      simp
    · unfold label_to_onehot
      rw [getD_map_lt _ _ j (by simpa using hj) 0 0, getD_range_lt n j hj]
      by_cases h : j ∈ label.getD i [] <;> simp [h]

/-- Witness for C8 at `label = [[0, 2]]`, `n = 3`, `i = 0`, `j = 2`. -/
theorem C8_index_label_normalization_witness :
    (formatIndexLabel [[0, 2]] none =
      .error "For index-type labels, please specify num_classes.") ∧
    ([[(1 : ℚ), 0, 1]].length = [[0, 2]].length ∧
      ∀ i j : ℕ, i < [[0, 2]].length → j < 3 →
        (([[(1 : ℚ), 0, 1]].getD i []).length = 3 ∧
          (([[(1 : ℚ), 0, 1]].getD i []).getD j 0 = 1 ↔ j ∈ [[0, 2]].getD i []))) :=
  ⟨C8_index_label_normalization.1 [[0, 2]],
   C8_index_label_normalization.2 [[0, 2]] 3 [[1, 0, 1]] (by rfl)⟩

unseal Rat.add Rat.mul Rat.inv Rat.sub Rat.ofScientific in
/-- C3 counterexample: with the ranked id list `0..99`, the relevant id set
`{0, 3, 6, 8, 35}`, `k = 100` and `option = "standard"`,
`RetrievalAveragePrecision.calculate` returns exactly `1055/21 ≈ 50.238`,
which is more than 33 away from the claimed value `16.746031746031745`: the
normalizing denominator is the full length of the relevant id list, and the
claimed value arises only for the source docstring's 15-element list. -/
theorem C3_retrieval_fixture_counterexample :
    RetrievalAveragePrecision.calculate ((List.range 100).map Int.ofNat)
      [0, 3, 6, 8, 35] 100 ROption.standard = .ok (1055/21) ∧
    33 < (1055 : ℚ)/21 - 16746031746031745/1000000000000000 :=
  ⟨by rfl, by decide⟩

unseal Rat.add Rat.mul Rat.inv Rat.sub Rat.ofScientific in
/-- C3 (amended): `RetrievalAveragePrecision.calculate` applied to the ranked
id list `0..99`, the relevant id set `{0, 3, 6, 8, 35}`, `k = 100` and
`option = "standard"` returns exactly `1055/21 = 50.238095...`; the spec's
literal `16.746031746031745` is recovered (up to floating-point tolerance)
with the source docstring's 15-element relevant id list
`[0, 3, 6, 8, 35, 101..105, 201..205]`, of which only the first five appear
among the ranked ids. -/
theorem C3_retrieval_fixture_amended :
    RetrievalAveragePrecision.calculate ((List.range 100).map Int.ofNat)
      [0, 3, 6, 8, 35] 100 ROption.standard = .ok (1055/21) ∧
    RetrievalAveragePrecision.calculate ((List.range 100).map Int.ofNat)
      [0, 3, 6, 8, 35, 101, 102, 103, 104, 105, 201, 202, 203, 204, 205]
      100 ROption.standard = .ok (1055/63) ∧
    |(1055 : ℚ)/63 - 16746031746031745/1000000000000000| < 1/10^9 :=
  ⟨by rfl, by rfl, by decide⟩

unseal Rat.add Rat.mul Rat.inv Rat.sub Rat.ofScientific in
/-- C4: `AveragePrecision.calculate` with `average = "macro"` on the spec's
4×4 fixture returns exactly `425/6`, which is `70.833` up to floating-point
tolerance. -/
theorem C4_average_precision_fixture :
    AveragePrecision.calculate
      [[9/10, 8/10, 3/10, 2/10], [1/10, 2/10, 2/10, 1/10],
       [7/10, 5/10, 9/10, 3/10], [8/10, 1/10, 1/10, 2/10]]
      [[1, 1, 0, 0], [0, 1, 0, 0], [0, 0, 1, 0], [1, 0, 0, 0]]
      Average.macroAvg = .ok [425/6] ∧
    |(425 : ℚ)/6 - 70833/1000| < 1/1000 :=
  ⟨by rfl, by decide⟩

/-- `apScan` over a list with no entry equal to 1 accumulates no precision and
leaves the true-positive count unchanged. -/
theorem apScan_no_pos (l : List ℚ) : ∀ (i tpc : ℕ), (∀ t ∈ l, t ≠ 1) →
    apScan l i tpc = (0, tpc) := by
  induction l with
  | nil =>
    intro i tpc _
    rfl
  | cons t rest ih =>
    intro i tpc h
    have ht : ¬(t = 1) := h t (List.mem_cons_self t rest)
    simp [apScan, ht, ih (i + 1) tpc fun x hx => h x (List.mem_cons_of_mem _ hx)]

/-- Every element of `sortedTargets pred target` is an element of `target`. -/
theorem mem_sortedTargets {pred target : List ℚ} {t : ℚ}
    (h : t ∈ sortedTargets pred target) : t ∈ target := by
  unfold sortedTargets at h
  obtain ⟨pt, hpt, rfl⟩ := List.mem_map.mp h
  have h2 : pt ∈ validPairs pred target :=
    (List.perm_insertionSort _ _).mem_iff.mp hpt
  have h3 : pt ∈ pred.zip target := (List.mem_filter.mp h2).1
  obtain ⟨a, b⟩ := pt
  exact (List.of_mem_zip h3).2

/-- When some target entry is a valid (non-sentinel) one and the two columns
have equal length, the filtered-and-sorted target list is nonempty. -/
theorem sortedTargets_ne_nil {pred target : List ℚ}
    (hlen : pred.length = target.length) (hvalid : ∃ t ∈ target, -1 < t) :
    sortedTargets pred target ≠ [] := by
  obtain ⟨t, ht, htv⟩ := hvalid
  obtain ⟨i, hi, rfl⟩ := List.mem_iff_getElem.mp ht
  have hip : i < pred.length := by omega
  have hiz : i < (pred.zip target).length := by
    simp only [List.length_zip]
    omega
  have hzip : (pred[i], target[i]) ∈ pred.zip target := by
    have h3 : (pred.zip target).get ⟨i, hiz⟩ = (pred[i], target[i]) := by
      simp [List.get_eq_getElem, List.getElem_zip]
    have h4 : (pred.zip target).get ⟨i, hiz⟩ ∈ pred.zip target := List.get_mem _ _ _
    rw [h3] at h4
    exact h4
  have hmem : (pred[i], target[i]) ∈ validPairs pred target :=
    List.mem_filter.mpr ⟨hzip, by simpa using htv⟩
  intro hcon
  have h1 : (sortedTargets pred target).length = (validPairs pred target).length := by
    unfold sortedTargets
    simp [(List.perm_insertionSort _ (validPairs pred target)).length_eq]
  have h2 := List.length_pos_of_mem hmem
  rw [hcon] at h1
  simp at h1
  omega

/-- C5: for every class whose target column has at least one non-sentinel
entry but no entry equal to 1, `_average_precision` returns 0 (the precision
sum is 0 and the epsilon-guarded denominator `max(total_pos, eps)` is `eps`),
with no crash and no NaN. -/
theorem C5_zero_true_positive_ap_zero (pred target : List ℚ)
    (hlen : pred.length = target.length)
    (hvalid : ∃ t ∈ target, -1 < t)
    (hnopos : ∀ t ∈ target, t ≠ 1) :
    _average_precision pred target = .ok 0 := by
  unfold _average_precision
  have hne : (sortedTargets pred target).isEmpty = false := by
    simp [List.isEmpty_iff, sortedTargets_ne_nil hlen hvalid]
  have hscan : apScan (sortedTargets pred target) 1 0 = (0, 0) :=
    apScan_no_pos _ 1 0 fun t ht => hnopos t (mem_sortedTargets ht)
  simp [hne, hscan]

/-- Witness for C5 at `pred = [1/2]`, `target = [0]`. -/
theorem C5_zero_true_positive_ap_zero_witness :
    _average_precision [1/2] [0] = .ok 0 :=
  C5_zero_true_positive_ap_zero [1/2] [0] (by rfl)
    ⟨0, by simp, by norm_num⟩ (by decide)

/-- Sum of a 0/1 indicator of membership over `List.range n`: it equals the
length of the member list when that list has no duplicates and all its
elements are below `n`. -/
theorem sum_indicator_range (L : List ℕ) (n : ℕ) (hnd : L.Nodup)
    (hsub : ∀ x ∈ L, x < n) :
    ((List.range n).map fun j => if j ∈ L then (1 : ℕ) else 0).sum = L.length := by
  have hfl : ((List.range n).map fun j => if j ∈ L then (1 : ℕ) else 0).sum =
      ((List.range n).filter fun j => decide (j ∈ L)).length := by
    induction (List.range n) with
    | nil => rfl
    | cons a t ih =>
      by_cases h : a ∈ L <;> simp [h, ih, List.filter_cons] <;> omega
  rw [hfl]
  have hperm : List.Perm ((List.range n).filter fun j => decide (j ∈ L)) L := by
    refine (List.perm_ext_iff_of_nodup ((List.nodup_range n).filter _) hnd).mpr ?_
    intro a
    constructor
    · intro ha
      simpa using (List.mem_filter.mp ha).2
    · intro ha
      exact List.mem_filter.mpr ⟨List.mem_range.mpr (hsub a ha), by simpa using ha⟩
  exact hperm.length_eq

/-- The top-k index list of a row is duplicate-free, bounded by the row
length, and has exactly `k` entries when `k` is at most the row length. -/
theorem topkIndices_spec (row : List ℚ) (k : ℕ) (hk : k ≤ row.length) :
    (topkIndices row k).Nodup ∧ (∀ x ∈ topkIndices row k, x < row.length) ∧
    (topkIndices row k).length = k := by
  have hperm : List.Perm (sortedIdx row) (List.range row.length) :=
    List.perm_insertionSort _ _
  have hnd : (sortedIdx row).Nodup := hperm.nodup_iff.mpr (List.nodup_range _)
  refine ⟨hnd.sublist (List.take_sublist k _), ?_, ?_⟩
  · intro x hx
    have : x ∈ sortedIdx row := List.mem_of_mem_take hx
    exact List.mem_range.mp (hperm.mem_iff.mp this)
  · have : (sortedIdx row).length = row.length := by
      rw [hperm.length_eq, List.length_range]
    rw [topkIndices, List.length_take, this]
    omega

/-- C9: in top-k mode with `1 ≤ k` and `k` at most the class count, every row
of the decision mask produced by the top-k rule of
`MultiLabelMetric.calculate` contains exactly `k` ones. -/
theorem C9_topk_mask_row_sum (pred : Mat) (k : ℕ) (hk : 1 ≤ k)
    (hkC : ∀ row ∈ pred, k ≤ row.length) :
    ∀ mrow ∈ topkMask pred k, mrow.sum = k := by
  intro mrow hmrow
  obtain ⟨row, hrow, rfl⟩ := List.mem_map.mp hmrow
  obtain ⟨hnd, hsub, hlen⟩ := topkIndices_spec row k (hkC row hrow)
  unfold topkMaskRow
  rw [sum_indicator_range _ _ hnd hsub, hlen]

unseal Rat.add Rat.mul Rat.inv Rat.sub Rat.ofScientific in
/-- Witness for C9 at `pred = [[1/2, 3/4]]`, `k = 1`: the only mask row is
`[0, 1]` and it sums to 1. -/
theorem C9_topk_mask_row_sum_witness :
    [0, 1] ∈ topkMask [[(1 : ℚ)/2, 3/4]] 1 ∧ ([0, 1] : List ℕ).sum = 1 :=
  ⟨by decide,
   C9_topk_mask_row_sum [[1/2, 3/4]] 1 (by decide) (by decide) [0, 1] (by decide)⟩

/-- C10: `_average_precision` fails with the empty-tensor index error whenever
every target entry of the class is the `-1` ignore sentinel (in particular on
zero samples), and it is total (returns a value) as soon as one zipped sample
survives the sentinel filter; consequently `AveragePrecision.calculate` fails
on a matrix whose first class column is entirely sentinel. -/
theorem C10_ap_empty_class_partiality :
    (∀ pred target : List ℚ, (∀ t ∈ target, t = -1) →
      _average_precision pred target =
        .error "IndexError: tps[-1] on an empty tensor") ∧
    (∀ pred target : List ℚ, (∃ pt ∈ pred.zip target, -1 < pt.2) →
      ∃ q, _average_precision pred target = .ok q) ∧
    (∀ pred target : Mat,
      (pred.length = target.length ∧
        (∀ r ∈ pred, r.length = (pred.headD []).length) ∧
        (∀ r ∈ target, r.length = (pred.headD []).length)) →
      0 < (pred.headD []).length →
      (∀ t ∈ column target 0, t = -1) →
      AveragePrecision.calculate pred target Average.macroAvg =
        .error "IndexError: tps[-1] on an empty tensor") := by
  have herr : ∀ pred target : List ℚ, (∀ t ∈ target, t = -1) →
      _average_precision pred target =
        .error "IndexError: tps[-1] on an empty tensor" := by
    intro pred target h
    unfold _average_precision
    have hempty : sortedTargets pred target = [] := by
      unfold sortedTargets validPairs
      have : (pred.zip target).filter (fun pt => decide (-1 < pt.2)) = [] := by
        rw [List.filter_eq_nil_iff]
        intro pt hpt
        have : pt.2 ∈ target := by
          obtain ⟨a, b⟩ := pt
          exact (List.of_mem_zip hpt).2
        simp [h pt.2 this]
      simp [this]
    simp [hempty]
  refine ⟨herr, ?_, ?_⟩
  · intro pred target hex
    obtain ⟨pt, hpt, hv⟩ := hex
    have hmem : pt ∈ validPairs pred target :=
      List.mem_filter.mpr ⟨hpt, by simpa using hv⟩
    have hnn : sortedTargets pred target ≠ [] := by
      intro hcon
      have h1 : (sortedTargets pred target).length = (validPairs pred target).length := by
        unfold sortedTargets
        simp [(List.perm_insertionSort _ (validPairs pred target)).length_eq]
      rw [hcon] at h1
      have h2 := List.length_pos_of_mem hmem
      simp at h1
      omega
    have hne : (sortedTargets pred target).isEmpty = false := by
      simp [List.isEmpty_iff, hnn]
    refine ⟨(apScan (sortedTargets pred target) 1 0).1 /
      max ((apScan (sortedTargets pred target) 1 0).2 : ℚ) eps, ?_⟩
    unfold _average_precision
    simp [hne]
  · intro pred target hshape hC h
    unfold AveragePrecision.calculate
    rw [if_neg (by simp), if_pos hshape]
    obtain ⟨C1, hC1⟩ : ∃ m, (pred.headD []).length = m + 1 :=
      ⟨(pred.headD []).length - 1, by omega⟩
    rw [hC1, List.range_succ_eq_map]
    have h0 : _average_precision (column pred 0) (column target 0) =
        .error "IndexError: tps[-1] on an empty tensor" :=
      herr (column pred 0) (column target 0) h
    simp [apPerClass, h0, Bind.bind, Except.bind]

/-- Witness for C10 at `pred = [1/2]`, `target = [-1]` (parts 1 and 3) and
`target = [0]` (part 2). -/
theorem C10_ap_empty_class_partiality_witness :
    (_average_precision [1/2] [-1] =
      .error "IndexError: tps[-1] on an empty tensor") ∧
    (∃ q, _average_precision [2] [0] = .ok q) ∧
    (AveragePrecision.calculate [[1/2]] [[-1]] Average.macroAvg =
      .error "IndexError: tps[-1] on an empty tensor") :=
  ⟨C10_ap_empty_class_partiality.1 [1/2] [-1] (by decide),
   C10_ap_empty_class_partiality.2.1 [2] [0] ⟨(2, 0), by decide, by norm_num⟩,
   C10_ap_empty_class_partiality.2.2 [[1/2]] [[-1]] (by decide) (by decide) (by decide)⟩

/-- The zero-guarded ratio of a numerator bounded by its denominator lies in
`[0, 1]`. -/
theorem ratio_bounds (a b : ℕ) (h : a ≤ b) : 0 ≤ ratio a b ∧ ratio a b ≤ 1 := by
  unfold ratio
  by_cases hb : b = 0
  · simp [hb]
  · rw [if_neg hb]
    have hbq : (0 : ℚ) < b := by
      exact_mod_cast Nat.pos_of_ne_zero hb
    exact ⟨div_nonneg (by positivity) hbq.le,
      (div_le_one hbq).mpr (by exact_mod_cast h)⟩

/-- The zero-guarded harmonic mean of two values in `[0, 1]` lies in
`[0, 1]`. -/
theorem f1q_bounds {p r : ℚ} (hp : 0 ≤ p ∧ p ≤ 1) (hr : 0 ≤ r ∧ r ≤ 1) :
    0 ≤ f1q p r ∧ f1q p r ≤ 1 := by
  unfold f1q
  by_cases hpr : p + r = 0
  · simp [hpr]
  · rw [if_neg hpr]
    have hpos : 0 < p + r := lt_of_le_of_ne (by linarith [hp.1, hr.1]) (Ne.symm hpr)
    constructor
    · exact div_nonneg (by nlinarith [hp.1, hr.1]) hpos.le
    · rw [div_le_one hpos]
      nlinarith [hp.1, hr.1, hp.2, hr.2]

/-- A defined (non-NaN) mean of a list of values in `[0, 1]` lies in
`[0, 1]`. -/
theorem meanQ_some_bounds {l : List ℚ} {m : ℚ} (hm : meanQ l = some m)
    (h : ∀ x ∈ l, 0 ≤ x ∧ x ≤ 1) : 0 ≤ m ∧ m ≤ 1 := by
  unfold meanQ at hm
  by_cases hl : l.length = 0
  · rw [if_pos hl] at hm
    exact absurd hm (by simp)
  · rw [if_neg hl] at hm
    obtain rfl : l.sum / (l.length : ℚ) = m := Option.some.inj hm
    have hlq : (0 : ℚ) < l.length := by
      exact_mod_cast Nat.pos_of_ne_zero hl
    have hsum0 : 0 ≤ l.sum := List.sum_nonneg fun x hx => (h x hx).1
    have hsum1 : l.sum ≤ (l.length : ℚ) := by
      have := List.sum_le_card_nsmul l 1 fun x hx => (h x hx).2
      simpa using this
    exact ⟨div_nonneg hsum0 hlq.le, (div_le_one hlq).mpr hsum1⟩

/-- A value in `[0, 1]` scaled by 100 lies in `[0, 100]`. -/
theorem mul100_bounds {x : ℚ} (h : 0 ≤ x ∧ x ≤ 1) :
    0 ≤ x * 100 ∧ x * 100 ≤ 100 := ⟨by linarith [h.1], by linarith [h.2]⟩

/-- Per-class precision lies in `[0, 1]`. -/
theorem clsPrecision_bounds (mask : List (List ℕ)) (target : List (List ℤ))
    (c : ℕ) : 0 ≤ clsPrecision mask target c ∧ clsPrecision mask target c ≤ 1 :=
  ratio_bounds _ _ (Nat.le_add_right _ _)

/-- Per-class recall lies in `[0, 1]`. -/
theorem clsRecall_bounds (mask : List (List ℕ)) (target : List (List ℤ))
    (c : ℕ) : 0 ≤ clsRecall mask target c ∧ clsRecall mask target c ≤ 1 :=
  ratio_bounds _ _ (Nat.le_add_right _ _)

/-- Per-class f1-score lies in `[0, 1]`. -/
theorem clsF1_bounds (mask : List (List ℕ)) (target : List (List ℤ)) (c : ℕ) :
    0 ≤ clsF1 mask target c ∧ clsF1 mask target c ≤ 1 :=
  f1q_bounds (clsPrecision_bounds mask target c) (clsRecall_bounds mask target c)

/-- Inversion of the confusion engine's macro branch: a successful result
consists of the three defined (non-NaN) means of the per-class vectors,
scaled by 100, and the summed support. -/
theorem prfs_macro_ok {mask : List (List ℕ)} {target : List (List ℤ)} {C : ℕ}
    {res : List ℚ × List ℚ × List ℚ × List ℕ}
    (h : precision_recall_f1_support mask target C Average.macroAvg = .ok res) :
    ∃ p r f, meanQ ((List.range C).map (clsPrecision mask target)) = some p ∧
      meanQ ((List.range C).map (clsRecall mask target)) = some r ∧
      meanQ ((List.range C).map (clsF1 mask target)) = some f ∧
      res = ([p * 100], [r * 100], [f * 100],
        [((List.range C).map (clsSupport mask target)).sum]) := by
  unfold precision_recall_f1_support at h
  cases hp : meanQ ((List.range C).map (clsPrecision mask target)) with
  | none =>
    rw [hp] at h
    simp at h
  | some p =>
    rw [hp] at h
    cases hr : meanQ ((List.range C).map (clsRecall mask target)) with
    | none =>
      rw [hr] at h
      simp at h
    | some r =>
      rw [hr] at h
      cases hf : meanQ ((List.range C).map (clsF1 mask target)) with
      | none =>
        rw [hf] at h
        simp at h
      | some f =>
        rw [hf] at h
        exact ⟨p, r, f, rfl, rfl, rfl, (Except.ok.inj h).symm⟩

/-- Every precision, recall and f1 component of a successful confusion-engine
result lies in `[0, 100]`, for every decision mask, target and averaging
mode. -/
theorem prfs_bounds (mask : List (List ℕ)) (target : List (List ℤ)) (C : ℕ)
    (avg : Average) (res : List ℚ × List ℚ × List ℚ × List ℕ)
    (h : precision_recall_f1_support mask target C avg = .ok res) :
    (∀ x ∈ res.1, 0 ≤ x ∧ x ≤ 100) ∧
    (∀ x ∈ res.2.1, 0 ≤ x ∧ x ≤ 100) ∧
    (∀ x ∈ res.2.2.1, 0 ≤ x ∧ x ≤ 100) := by
  cases avg with
  | macroAvg =>
    obtain ⟨p, r, f, hp, hr, hf, rfl⟩ := prfs_macro_ok h
    refine ⟨?_, ?_, ?_⟩
    · intro x hx
      obtain rfl := List.mem_singleton.mp hx
      refine mul100_bounds (meanQ_some_bounds hp ?_)
      intro y hy
      obtain ⟨c, _, rfl⟩ := List.mem_map.mp hy
      exact clsPrecision_bounds mask target c
    · intro x hx
      obtain rfl := List.mem_singleton.mp hx
      refine mul100_bounds (meanQ_some_bounds hr ?_)
      intro y hy
      obtain ⟨c, _, rfl⟩ := List.mem_map.mp hy
      exact clsRecall_bounds mask target c
    · intro x hx
      obtain rfl := List.mem_singleton.mp hx
      refine mul100_bounds (meanQ_some_bounds hf ?_)
      intro y hy
      obtain ⟨c, _, rfl⟩ := List.mem_map.mp hy
      exact clsF1_bounds mask target c
  | microAvg =>
    unfold precision_recall_f1_support at h
    obtain rfl : (
        [ratio (((List.range C).map (clsTP mask target)).sum)
          (((List.range C).map (clsTP mask target)).sum +
            ((List.range C).map (clsFP mask target)).sum) * 100],
        [ratio (((List.range C).map (clsTP mask target)).sum)
          (((List.range C).map (clsTP mask target)).sum +
            ((List.range C).map (clsFN mask target)).sum) * 100],
        [f1q (ratio (((List.range C).map (clsTP mask target)).sum)
            (((List.range C).map (clsTP mask target)).sum +
              ((List.range C).map (clsFP mask target)).sum))
          (ratio (((List.range C).map (clsTP mask target)).sum)
            (((List.range C).map (clsTP mask target)).sum +
              ((List.range C).map (clsFN mask target)).sum)) * 100],
        [((List.range C).map (clsTP mask target)).sum +
          ((List.range C).map (clsFN mask target)).sum]) = res :=
      Except.ok.inj h
    refine ⟨?_, ?_, ?_⟩
    · intro x hx
      obtain rfl := List.mem_singleton.mp hx
      exact mul100_bounds (ratio_bounds _ _ (Nat.le_add_right _ _))
    · intro x hx
      obtain rfl := List.mem_singleton.mp hx
      exact mul100_bounds (ratio_bounds _ _ (Nat.le_add_right _ _))
    · intro x hx
      obtain rfl := List.mem_singleton.mp hx
      exact mul100_bounds (f1q_bounds
        (ratio_bounds _ _ (Nat.le_add_right _ _))
        (ratio_bounds _ _ (Nat.le_add_right _ _)))
  | noneAvg =>
    unfold precision_recall_f1_support at h
    obtain rfl : (
        (List.range C).map fun c => clsPrecision mask target c * 100,
        (List.range C).map fun c => clsRecall mask target c * 100,
        (List.range C).map fun c => clsF1 mask target c * 100,
        (List.range C).map (clsSupport mask target)) = res :=
      Except.ok.inj h
    refine ⟨?_, ?_, ?_⟩
    · intro x hx
      obtain ⟨c, _, rfl⟩ := List.mem_map.mp hx
      exact mul100_bounds (clsPrecision_bounds mask target c)
    · intro x hx
      obtain ⟨c, _, rfl⟩ := List.mem_map.mp hx
      exact mul100_bounds (clsRecall_bounds mask target c)
    · intro x hx
      obtain ⟨c, _, rfl⟩ := List.mem_map.mp hx
      exact mul100_bounds (clsF1_bounds mask target c)

/-- A successful `MultiLabelMetric.calculate` result is a successful
confusion-engine output, for some decision mask. -/
theorem calculate_ok_is_prfs {pred : Mat} {target : List (List ℤ)}
    {avg : Average} {thr : Option ℚ} {k : Option ℕ}
    {res : List ℚ × List ℚ × List ℚ × List ℕ}
    (h : MultiLabelMetric.calculate pred target avg thr k = .ok res) :
    ∃ mask, precision_recall_f1_support mask target (pred.headD []).length avg
      = .ok res := by
  unfold MultiLabelMetric.calculate at h
  by_cases hs : pred.length = target.length ∧
      (∀ r ∈ pred, r.length = (pred.headD []).length) ∧
      (∀ r ∈ target, r.length = (pred.headD []).length)
  · rw [if_pos hs] at h
    by_cases ht : (if thr.isNone && k.isNone then some (1/2 : ℚ) else thr).isNone
    · rw [Option.isNone_iff_eq_none.mp ht] at h
      exact ⟨topkMask pred (k.getD 0), h⟩
    · obtain ⟨t, hteq⟩ := Option.ne_none_iff_exists'.mp
        (fun hcon => ht (Option.isNone_iff_eq_none.mpr hcon))
      rw [hteq] at h
      exact ⟨threshMask pred t, h⟩
  · rw [if_neg hs] at h
    exact absurd h (by simp)

/-- Invariant of `apScan`: starting strictly below the 1-based rank, the
accumulated precision sum is non-negative and, together with the starting
true-positive count, bounded by the final true-positive count. -/
theorem apScan_bounds (l : List ℚ) : ∀ (i tpc : ℕ), tpc < i →
    0 ≤ (apScan l i tpc).1 ∧
    (apScan l i tpc).1 + (tpc : ℚ) ≤ ((apScan l i tpc).2 : ℚ) := by
  induction l with
  | nil =>
    intro i tpc _
    simp [apScan]
  | cons t rest ih =>
    intro i tpc h
    by_cases ht : t = 1
    · have ih' := ih (i + 1) (tpc + 1) (by omega)
      have hi : (0 : ℚ) < (i : ℚ) := by
        exact_mod_cast Nat.pos_of_ne_zero (by omega)
      have hterm0 : (0 : ℚ) ≤ ((tpc + 1 : ℕ) : ℚ) / (i : ℚ) := by positivity
      have hterm1 : ((tpc + 1 : ℕ) : ℚ) / (i : ℚ) ≤ 1 := by
        rw [div_le_one hi]
        exact_mod_cast (by omega : tpc + 1 ≤ i)
      simp only [apScan, if_pos ht]
      constructor
      · have := ih'.1
        push_cast
        push_cast at hterm0
        linarith
      · have h1 := ih'.1
        have h2 := ih'.2
        push_cast
        push_cast at hterm1 h2
        linarith
    · have ih' := ih (i + 1) tpc (by omega)
      simp only [apScan, if_neg ht]
      constructor
      · simpa using ih'.1
      · simpa using ih'.2

/-- `eps` is positive. -/
theorem eps_pos : 0 < eps := by norm_num [eps]

/-- A successful per-class `_average_precision` value lies in `[0, 1]`. -/
theorem average_precision_ok_bounds {pred target : List ℚ} {q : ℚ}
    (h : _average_precision pred target = .ok q) : 0 ≤ q ∧ q ≤ 1 := by
  unfold _average_precision at h
  by_cases hemp : (sortedTargets pred target).isEmpty
  · rw [if_pos hemp] at h
    exact absurd h (by simp)
  · rw [if_neg hemp] at h
    obtain rfl : (apScan (sortedTargets pred target) 1 0).1 /
        max ((apScan (sortedTargets pred target) 1 0).2 : ℚ) eps = q :=
      Except.ok.inj h
    obtain ⟨h0, h1⟩ := apScan_bounds (sortedTargets pred target) 1 0 (by omega)
    have hle : (apScan (sortedTargets pred target) 1 0).1 ≤
        ((apScan (sortedTargets pred target) 1 0).2 : ℚ) := by
      push_cast at h1
      linarith
    have hmaxpos : (0 : ℚ) < max ((apScan (sortedTargets pred target) 1 0).2 : ℚ) eps :=
      lt_of_lt_of_le eps_pos (le_max_right _ _)
    constructor
    · exact div_nonneg h0 hmaxpos.le
    · rw [div_le_one hmaxpos]
      exact le_trans hle (le_max_left _ _)

/-- Every element of a successful `apPerClass` run is a successful
`_average_precision` value, hence lies in `[0, 1]`. -/
theorem apPerClass_ok_bounds {pred target : Mat} : ∀ (cs : List ℕ) (aps : List ℚ),
    apPerClass pred target cs = .ok aps → ∀ a ∈ aps, 0 ≤ a ∧ a ≤ 1 := by
  intro cs
  induction cs with
  | nil =>
    intro aps h a ha
    obtain rfl : ([] : List ℚ) = aps := Except.ok.inj h
    simp at ha
  | cons c rest ih =>
    intro aps h a ha
    unfold apPerClass at h
    cases h1 : _average_precision (column pred c) (column target c) with
    | error e =>
      rw [h1] at h
      exact absurd h (by simp [Bind.bind, Except.bind])
    | ok v =>
      rw [h1] at h
      cases h2 : apPerClass pred target rest with
      | error e =>
        rw [h2] at h
        exact absurd h (by simp [Bind.bind, Except.bind])
      | ok vs =>
        rw [h2] at h
        simp only [Bind.bind, Except.bind] at h
        obtain rfl : v :: vs = aps := Except.ok.inj h
        rcases List.mem_cons.mp ha with rfl | hmem
        · exact average_precision_ok_bounds h1
        · exact ih vs h2 a hmem

/-- Every element of a successful `AveragePrecision.calculate` output lies in
`[0, 100]`. -/
theorem averagePrecision_calculate_ok_bounds {pred target : Mat} {avg : Average}
    {aps : List ℚ} (h : AveragePrecision.calculate pred target avg = .ok aps) :
    ∀ a ∈ aps, 0 ≤ a ∧ a ≤ 100 := by
  unfold AveragePrecision.calculate at h
  by_cases hmicro : avg = Average.microAvg
  · rw [if_pos hmicro] at h
    exact absurd h (by simp)
  · rw [if_neg hmicro] at h
    by_cases hs : pred.length = target.length ∧
        (∀ r ∈ pred, r.length = (pred.headD []).length) ∧
        (∀ r ∈ target, r.length = (pred.headD []).length)
    · rw [if_pos hs] at h
      cases hap : apPerClass pred target (List.range (pred.headD []).length) with
      | error e =>
        rw [hap] at h
        exact absurd h (by simp)
      | ok v =>
        rw [hap] at h
        have hv : ∀ a ∈ v, 0 ≤ a ∧ a ≤ 1 := apPerClass_ok_bounds _ v hap
        cases avg with
        | macroAvg =>
          have h2 : (match meanQ v with
              | some m => Except.ok [m * 100]
              | none => (Except.error "NaN: mean of an empty tensor" :
                  Except String (List ℚ))) = Except.ok aps := h
          cases hm : meanQ v with
          | none =>
            rw [hm] at h2
            simp at h2
          | some m =>
            rw [hm] at h2
            obtain rfl : [m * 100] = aps := Except.ok.inj h2
            intro a ha
            obtain rfl : m * 100 = a := List.mem_singleton.mp ha |>.symm
            exact mul100_bounds (meanQ_some_bounds hm hv)
        | microAvg => exact absurd rfl hmicro
        | noneAvg =>
          obtain rfl : v.map (fun a => a * 100) = aps := Except.ok.inj h
          intro a ha
          obtain ⟨b, hb, rfl⟩ := List.mem_map.mp ha
          exact mul100_bounds (hv b hb)
    · rw [if_neg hs] at h
      exact absurd h (by simp)

/-- The retrieval precision accumulator is non-negative. -/
theorem apSumGo_nonneg : ∀ (ranks : List ℕ) (i : ℕ) (opt : ROption),
    0 ≤ apSumGo ranks i opt := by
  intro ranks
  induction ranks with
  | nil =>
    intro i opt
    simp [apSumGo]
  | cons r rest ih =>
    intro i opt
    have hterm : (0 : ℚ) ≤ (match opt with
      | ROption.standard => ((i : ℚ) + 1) / ((r : ℚ) + 1)
      | ROption.averageOpt =>
        ((if 0 < r then (i : ℚ) / (r : ℚ) else 1) + ((i : ℚ) + 1) / ((r : ℚ) + 1)) / 2) := by
      cases opt with
      | standard => positivity
      | averageOpt =>
        have h1 : (0 : ℚ) ≤ if 0 < r then (i : ℚ) / (r : ℚ) else 1 := by
          by_cases hr : 0 < r
          · rw [if_pos hr]
            positivity
          · rw [if_neg hr]
            norm_num
        have h2 : (0 : ℚ) ≤ ((i : ℚ) + 1) / ((r : ℚ) + 1) := by positivity
        positivity
    have := ih (i + 1) opt
    simp only [apSumGo]
    linarith

/-- Over a strictly increasing rank list whose entries dominate the starting
occurrence index, every accumulated precision term is at most 1, so the sum is
bounded by the number of positive ranks. -/
theorem apSumGo_le : ∀ (ranks : List ℕ) (i : ℕ) (opt : ROption),
    List.Pairwise (· < ·) ranks → (∀ r ∈ ranks, i ≤ r) →
    apSumGo ranks i opt ≤ (ranks.length : ℚ) := by
  intro ranks
  induction ranks with
  | nil =>
    intro i opt _ _
    simp [apSumGo]
  | cons r rest ih =>
    intro i opt hpair hdom
    have hir : i ≤ r := hdom r (List.mem_cons_self r rest)
    have hrpos : (0 : ℚ) < (r : ℚ) + 1 := by positivity
    have hterm : (match opt with
      | ROption.standard => ((i : ℚ) + 1) / ((r : ℚ) + 1)
      | ROption.averageOpt =>
        ((if 0 < r then (i : ℚ) / (r : ℚ) else 1) + ((i : ℚ) + 1) / ((r : ℚ) + 1)) / 2) ≤ 1 := by
      have hright : ((i : ℚ) + 1) / ((r : ℚ) + 1) ≤ 1 := by
        rw [div_le_one hrpos]
        have : (i : ℚ) ≤ (r : ℚ) := by exact_mod_cast hir
        linarith
      cases opt with
      | standard => exact hright
      | averageOpt =>
        have hleft : (if 0 < r then (i : ℚ) / (r : ℚ) else 1) ≤ 1 := by
          by_cases hr : 0 < r
          · rw [if_pos hr]
            rw [div_le_one (by exact_mod_cast hr)]
            exact_mod_cast hir
          · rw [if_neg hr]
        linarith
    have hrest : apSumGo rest (i + 1) opt ≤ (rest.length : ℚ) := by
      refine ih (i + 1) opt hpair.of_cons ?_
      intro x hx
      have := (List.pairwise_cons.mp hpair).1 x hx
      omega
    simp only [apSumGo, List.length_cons]
    push_cast
    linarith

/-- The positive-rank list of the truncated id list is strictly
increasing. -/
theorem positiveRanks_pairwise (idsT target : List ℤ) :
    List.Pairwise (· < ·) (RetrievalAveragePrecision.positiveRanks idsT target) :=
  (List.pairwise_lt_range _).filter _

/-- When the truncated id list has no duplicates, the number of positive
ranks is at most the length of the relevant id list. -/
theorem positiveRanks_length_le_target {idsT target : List ℤ}
    (hnd : idsT.Nodup) :
    (RetrievalAveragePrecision.positiveRanks idsT target).length ≤
      target.length := by
  set pr := RetrievalAveragePrecision.positiveRanks idsT target with hpr
  have hlt : ∀ r ∈ pr, r < idsT.length := by
    intro r hr
    have : r ∈ List.range idsT.length := List.mem_of_mem_filter hr
    exact List.mem_range.mp this
  have hprnd : pr.Nodup := (positiveRanks_pairwise idsT target).imp Nat.ne_of_lt
  set m := pr.map (fun r => idsT.getD r 0) with hm
  have hmlen : m.length = pr.length := List.length_map _ _
  have hmnd : m.Nodup := by
    refine hprnd.map_on ?_
    intro x hx y hy hxy
    have hx' : x < idsT.length := hlt x hx
    have hy' : y < idsT.length := hlt y hy
    rw [List.getD_eq_getElem idsT 0 hx', List.getD_eq_getElem idsT 0 hy'] at hxy
    exact (List.Nodup.getElem_inj_iff hnd).mp hxy
  have hmsub : ∀ a ∈ m, a ∈ target := by
    intro a ha
    obtain ⟨r, hr, rfl⟩ := List.mem_map.mp ha
    have := List.of_mem_filter hr
    simpa using this
  calc pr.length = m.length := hmlen.symm
  _ = m.toFinset.card := (List.toFinset_card_of_nodup hmnd).symm
  _ ≤ target.toFinset.card :=
      Finset.card_le_card fun a ha =>
        List.mem_toFinset.mpr (hmsub a (List.mem_toFinset.mp ha))
  _ ≤ target.length := List.toFinset_card_le target

/-- A successful `RetrievalAveragePrecision.calculate` value on a
duplicate-free ranked id list lies in `[0, 100]`. -/
theorem retrieval_calculate_ok_bounds {ids target : List ℤ} {k : ℕ}
    {opt : ROption} {q : ℚ} (hnd : ids.Nodup)
    (h : RetrievalAveragePrecision.calculate ids target k opt = .ok q) :
    0 ≤ q ∧ q ≤ 100 := by
  unfold RetrievalAveragePrecision.calculate at h
  by_cases hz : min target.length k = 0
  · rw [if_pos hz] at h
    exact absurd h (by simp)
  · rw [if_neg hz] at h
    set pr := RetrievalAveragePrecision.positiveRanks (ids.take k) target with hpr
    obtain rfl : apSumGo pr 0 opt / ((min target.length k : ℕ) : ℚ) * 100 = q :=
      Except.ok.inj h
    have hnpos : (0 : ℚ) < ((min target.length k : ℕ) : ℚ) := by
      exact_mod_cast Nat.pos_of_ne_zero hz
    have hs0 : 0 ≤ apSumGo pr 0 opt := apSumGo_nonneg pr 0 opt
    have hs1 : apSumGo pr 0 opt ≤ (pr.length : ℚ) :=
      apSumGo_le pr 0 opt (positiveRanks_pairwise _ _) (fun r _ => Nat.zero_le r)
    have hlen : pr.length ≤ min target.length k := by
      refine Nat.le_min.mpr ⟨?_, ?_⟩
      · exact positiveRanks_length_le_target (hnd.sublist (List.take_sublist k ids))
      · calc pr.length ≤ (List.range (ids.take k).length).length :=
              List.length_filter_le _ _
        _ = (ids.take k).length := List.length_range _
        _ ≤ k := by
            rw [List.length_take]
            omega
    have hfrac : apSumGo pr 0 opt / ((min target.length k : ℕ) : ℚ) ≤ 1 := by
      rw [div_le_one hnpos]
      calc apSumGo pr 0 opt ≤ (pr.length : ℚ) := hs1
      _ ≤ ((min target.length k : ℕ) : ℚ) := by exact_mod_cast hlen
    constructor
    · positivity
    · nlinarith

/-- C2 counterexample: at the valid identical-shape zero-class input
`pred = target = [[]]` (one sample, zero classes), `ap.mean()` at line 580 is
the mean of an empty tensor, so the program returns NaN — not a number in
`[0, 100]`.  ℚ has no NaN, so the model returns the distinguished NaN error
value, distinct from every `.ok` result. -/
theorem C2_nan_on_zero_classes :
    AveragePrecision.calculate [[]] [[]] Average.macroAvg =
      .error "NaN: mean of an empty tensor" := rfl

/-- C2 (amended): for every valid input, whenever the computational entry
points return a numeric (non-NaN) value — the zero-class macro mean is NaN,
modelled as the error value — the precision, recall and F1 values returned by
`MultiLabelMetric.calculate`, the average precisions returned by
`AveragePrecision.calculate`, and the value returned by
`RetrievalAveragePrecision.calculate` (on a duplicate-free ranked id list, as
produced by sorting gallery subscripts) all lie in `[0, 100]`, and every
support value is a non-negative integer. -/
theorem C2_outputs_in_range :
    (∀ (pred : Mat) (target : List (List ℤ)) (avg : Average) (thr : Option ℚ)
        (k : Option ℕ) (res : List ℚ × List ℚ × List ℚ × List ℕ),
      MultiLabelMetric.calculate pred target avg thr k = .ok res →
      (∀ x ∈ res.1, 0 ≤ x ∧ x ≤ 100) ∧ (∀ x ∈ res.2.1, 0 ≤ x ∧ x ≤ 100) ∧
      (∀ x ∈ res.2.2.1, 0 ≤ x ∧ x ≤ 100) ∧ (∀ s ∈ res.2.2.2, 0 ≤ (s : ℤ))) ∧
    (∀ (pred target : Mat) (avg : Average) (aps : List ℚ),
      AveragePrecision.calculate pred target avg = .ok aps →
      ∀ a ∈ aps, 0 ≤ a ∧ a ≤ 100) ∧
    (∀ (ids target : List ℤ) (k : ℕ) (opt : ROption) (q : ℚ), ids.Nodup →
      RetrievalAveragePrecision.calculate ids target k opt = .ok q →
      0 ≤ q ∧ q ≤ 100) := by
  refine ⟨?_, ?_, ?_⟩
  · intro pred target avg thr k res h
    obtain ⟨mask, hmask⟩ := calculate_ok_is_prfs h
    obtain ⟨h1, h2, h3⟩ :=
      prfs_bounds mask target (pred.headD []).length avg res hmask
    exact ⟨h1, h2, h3, fun s _ => Int.natCast_nonneg s⟩
  · intro pred target avg aps h
    exact averagePrecision_calculate_ok_bounds h
  · intro ids target k opt q hnd h
    exact retrieval_calculate_ok_bounds hnd h

unseal Rat.add Rat.mul Rat.inv Rat.sub Rat.ofScientific in
/-- Witness for C2 at `pred = target = [[1]]` for the two matrix entry points
and `ids = target = [0]`, `k = 5` for the retrieval entry point. -/
theorem C2_outputs_in_range_witness :
    ((∀ x ∈ ([100] : List ℚ), 0 ≤ x ∧ x ≤ 100) ∧
      (∀ x ∈ ([100] : List ℚ), 0 ≤ x ∧ x ≤ 100) ∧
      (∀ x ∈ ([100] : List ℚ), 0 ≤ x ∧ x ≤ 100) ∧
      (∀ s ∈ ([1] : List ℕ), 0 ≤ (s : ℤ))) ∧
    (∀ a ∈ ([100] : List ℚ), 0 ≤ a ∧ a ≤ 100) ∧
    (0 ≤ (100 : ℚ) ∧ (100 : ℚ) ≤ 100) :=
  ⟨C2_outputs_in_range.1 [[1]] [[1]] Average.macroAvg (some (1/2)) none
      ([100], [100], [100], [1]) (by rfl),
   C2_outputs_in_range.2.1 [[1]] [[1]] Average.macroAvg [100] (by rfl),
   C2_outputs_in_range.2.2 [0] [0] 5 ROption.standard 100 (by decide) (by rfl)⟩

end MMCls
